import Mathlib

/-!
# Verification of the miepy multi-particle interaction solver

Shallow embedding of `src/miepy/interactions.py` (the interaction-matrix
assemblers `sphere_cluster_tmatrix` / `particle_cluster_tmatrix` and the
solvers `solve_sphere_cluster` / `solve_particle_cluster`), together with
models of the helpers they call from `miepy.vsh` (the mode-index enumerator
and the translation operator, whose sources are not part of the snapshot and
are therefore modelled from the specification, with index conventions fixed
by the in-snapshot caller `src/miepy/forces.py`).

Conventions of the embedding:
* complex doubles are modelled as exact complex numbers `ℂ`;
* a numpy rank-6 complex array is a total function
  `ℕ → ℕ → ℕ → ℕ → ℕ → ℕ → ℂ` plus a separately recorded shape list;
* sequential in-place array assignments are sequential functional updates;
* the translation operator `miepy.vsh.vsh_translation(m, n, u, v, r, θ, φ, k,
  kind)` is an external collaborator: it is abstracted as a function of the
  four mode integers and of the separation vector `dji = positions[i] -
  positions[j]` (the conversion of `dji` to `(r, θ, φ)` on lines 31-33 /
  104-106 of interactions.py and the fixed arguments `k` and
  `VSH_mode.outgoing` are absorbed into the abstract function).
-/

/-- A rank-6 complex array, indexed `[particle, polarization, mode, particle,
polarization, mode]` as in `interaction_matrix[i,0,r,j,0,s]`. -/
abbrev Tensor6 : Type := ℕ → ℕ → ℕ → ℕ → ℕ → ℕ → ℂ

/-- The scalar Mie coefficient array `a[N,2,lmax]`, indexed
`a[particle, polarization, degree-1]`. -/
abbrev CoefArr : Type := ℕ → ℕ → ℕ → ℂ

/-- The per-particle T-matrix array `tmatrix[N,2,rmax,2,rmax]`. -/
abbrev TMArr : Type := ℕ → ℕ → ℕ → ℕ → ℕ → ℂ

/-- The source coefficient array `p_src[N,2,rmax]`. -/
abbrev SrcArr : Type := ℕ → ℕ → ℕ → ℂ

/-- A 3-vector of reals (one row of `positions[N,3]`). -/
abbrev V3 : Type := ℝ × ℝ × ℝ

/-- Componentwise difference `pi - pj` (line 30: `dji = pi - pj`). -/
def v3sub (p q : V3) : V3 := (p.1 - q.1, p.2.1 - q.2.1, p.2.2 - q.2.2)

/-- Componentwise negation of a separation vector. -/
def v3neg (d : V3) : V3 := (-d.1, -d.2.1, -d.2.2)

/-- Abstract translation operator: arguments `m n u v` and the separation
vector `dji`; returns the pair `(A_transfer, B_transfer)`.  It stands for
`miepy.vsh.vsh_translation(m, n, u, v, |dji|, arccos(dji_z/|dji|),
arctan2(dji_y, dji_x), k, miepy.VSH_mode.outgoing)`. -/
abbrev TransOp : Type := ℤ → ℕ → ℤ → ℕ → V3 → ℂ × ℂ

/-- The Python integer power `(-1)**e` appearing in the parity factors of
interactions.py, as an exact complex unit (`e` may be a negative integer,
e.g. `(-1)**(m+u)` with `m, u` negative orders; Python yields `±1.0` there). -/
def sgn (e : ℤ) : ℂ := if e % 2 = 0 then 1 else -1

/-- Modelled from the spec (§4.1) — the source file `miepy/vsh/mode_indices.py`
is not part of the snapshot.  `mode_indices(lmax)` enumerates the triples
`(r, n, m)` with degree `n = 1..lmax` ascending and order `m = -n..n`
ascending.  The linear index is 0-based, `r = n*n + n + m - 1`, as fixed by
the in-snapshot caller `src/miepy/forces.py` line 40
(`r1 = n**2 + n - 1 + m + 1` for the index of `(n, m+1)`) and by the fact
that `r` directly indexes arrays of extent `rmax` in interactions.py. -/
def mode_indices (lmax : ℕ) : List (ℕ × ℕ × ℤ) :=
  (List.range lmax).flatMap (fun k =>
    let n := k + 1
    (List.range (2 * n + 1)).map (fun j => (n * n - 1 + j, n, (j : ℤ) - n)))

/-- Modelled from the spec (§4.1): `lmax → rmax`, the mode count
`lmax*(lmax+2)` (source `miepy/vsh/mode_indices.py` not in the snapshot). -/
def Lmax_to_rmax (lmax : ℕ) : ℕ := lmax * (lmax + 2)

/-- Modelled from the spec (§4.1): `rmax → lmax`, failing (`none`, standing
for the spec's `ConfigurationError`) when `rmax` is not `l*(l+2)` for any
integer `l` (source `miepy/vsh/mode_indices.py` not in the snapshot). -/
def rmax_to_Lmax (rmax : ℕ) : Option ℕ :=
  if (Nat.sqrt (rmax + 1) - 1) * (Nat.sqrt (rmax + 1) - 1 + 2) = rmax
  then some (Nat.sqrt (rmax + 1) - 1) else none

/-- The degree of the mode with 0-based linear index `d`:
`r = n*n + n + m - 1` with `-n ≤ m ≤ n` gives `n² ≤ r+1 < (n+1)²`. -/
def degOf (d : ℕ) : ℕ := Nat.sqrt (d + 1)

/-- The all-zeros rank-6 array (`np.zeros`, line 24 / 97). -/
def zero6 : Tensor6 := fun _ _ _ _ _ _ => 0

/-- A single in-place array assignment
`interaction_matrix[i,a,r,j,c,s] = w`. -/
def upd6 (T : Tensor6) (i a r j c s : ℕ) (w : ℂ) : Tensor6 :=
  fun i' a' r' j' c' s' =>
    if (i', a', r', j', c', s') = (i, a, r, j, c, s) then w
    else T i' a' r' j' c' s'

/-- One mode triple `(r, n, m)` as produced by `miepy.mode_indices`. -/
abbrev Mode : Type := ℕ × ℕ × ℤ

/-- The sixteen assignments of one inner-loop iteration of
`sphere_cluster_tmatrix` (interactions.py lines 42-60), in program order
(the innermost `upd6` is line 42, the outermost is line 60). -/
def sphere_body (T : Tensor6) (i j : ℕ) (aC : CoefArr) (A B : ℂ)
    (r n : ℕ) (m : ℤ) (s v : ℕ) (u : ℤ) : Tensor6 :=
  let sc := ((s : ℤ) - 2 * u).toNat
  let rc := ((r : ℤ) - 2 * m).toNat
  upd6 (upd6 (upd6 (upd6
  (upd6 (upd6 (upd6 (upd6
  (upd6 (upd6 (upd6 (upd6
  (upd6 (upd6 (upd6 (upd6 T
    i 0 r j 0 s (A * aC j 0 (v - 1)))
    i 0 r j 1 s (B * aC j 1 (v - 1)))
    i 1 r j 0 s (B * aC j 0 (v - 1)))
    i 1 r j 1 s (A * aC j 1 (v - 1)))
    j 0 r i 0 s (sgn (n + v) * A * aC i 0 (v - 1)))
    j 0 r i 1 s (sgn (n + v + 1) * B * aC i 1 (v - 1)))
    j 1 r i 0 s (sgn (n + v + 1) * B * aC i 0 (v - 1)))
    j 1 r i 1 s (sgn (n + v) * A * aC i 1 (v - 1)))
    i 0 sc j 0 rc (sgn (m + u) * A * aC j 0 (n - 1)))
    i 0 sc j 1 rc (sgn (m + u + 1) * B * aC j 1 (n - 1)))
    i 1 sc j 0 rc (sgn (m + u + 1) * B * aC j 0 (n - 1)))
    i 1 sc j 1 rc (sgn (m + u) * A * aC j 1 (n - 1)))
    j 0 sc i 0 rc (sgn (m + u + n + v) * A * aC i 0 (n - 1)))
    j 0 sc i 1 rc (sgn (m + u + n + v) * B * aC i 1 (n - 1)))
    j 1 sc i 0 rc (sgn (m + u + n + v) * B * aC i 0 (n - 1)))
    j 1 sc i 1 rc (sgn (m + u + n + v) * A * aC i 1 (n - 1))

/-- The sixteen assignments of one inner-loop iteration of
`particle_cluster_tmatrix` (interactions.py lines 115-133): identical to
`sphere_body` except that no scalar Mie coefficient multiplies the
translation values. -/
def particle_body (T : Tensor6) (i j : ℕ) (A B : ℂ)
    (r n : ℕ) (m : ℤ) (s v : ℕ) (u : ℤ) : Tensor6 :=
  let sc := ((s : ℤ) - 2 * u).toNat
  let rc := ((r : ℤ) - 2 * m).toNat
  upd6 (upd6 (upd6 (upd6
  (upd6 (upd6 (upd6 (upd6
  (upd6 (upd6 (upd6 (upd6
  (upd6 (upd6 (upd6 (upd6 T
    i 0 r j 0 s A)
    i 0 r j 1 s B)
    i 1 r j 0 s B)
    i 1 r j 1 s A)
    j 0 r i 0 s (sgn (n + v) * A))
    j 0 r i 1 s (sgn (n + v + 1) * B))
    j 1 r i 0 s (sgn (n + v + 1) * B))
    j 1 r i 1 s (sgn (n + v) * A))
    i 0 sc j 0 rc (sgn (m + u) * A))
    i 0 sc j 1 rc (sgn (m + u + 1) * B))
    i 1 sc j 0 rc (sgn (m + u + 1) * B))
    i 1 sc j 1 rc (sgn (m + u) * A))
    j 0 sc i 0 rc (sgn (m + u + n + v) * A))
    j 0 sc i 1 rc (sgn (m + u + n + v) * B))
    j 1 sc i 0 rc (sgn (m + u + n + v) * B))
    j 1 sc i 1 rc (sgn (m + u + n + v) * A)

/-- The destination indices of the sixteen assignments of one inner-loop
iteration (the left-hand sides of lines 42-60 / 115-133), in program order;
`sc` and `rc` stand for the companion indices `s - 2u` and `r - 2m`. -/
def sphere_body_idxs (i j r s sc rc : ℕ) : List (ℕ × ℕ × ℕ × ℕ × ℕ × ℕ) :=
  [(i, 0, r, j, 0, s), (i, 0, r, j, 1, s), (i, 1, r, j, 0, s), (i, 1, r, j, 1, s),
   (j, 0, r, i, 0, s), (j, 0, r, i, 1, s), (j, 1, r, i, 0, s), (j, 1, r, i, 1, s),
   (i, 0, sc, j, 0, rc), (i, 0, sc, j, 1, rc), (i, 1, sc, j, 0, rc), (i, 1, sc, j, 1, rc),
   (j, 0, sc, i, 0, rc), (j, 0, sc, i, 1, rc), (j, 1, sc, i, 0, rc), (j, 1, sc, i, 1, rc)]

/-- The ordered-mode-pair double loop (lines 35-36 / 108-109): `r` outer,
`s` inner, both running over the full canonical enumeration. -/
def modePairs (lmax : ℕ) : List (Mode × Mode) :=
  (mode_indices lmax).flatMap (fun p => (mode_indices lmax).map (fun q => (p, q)))

/-- The particle-pair double loop (lines 26-27 / 99-100):
`i` in `range(N)`, `j` in `range(i+1, N)`. -/
def particlePairs (N : ℕ) : List (ℕ × ℕ) :=
  ((List.range N).flatMap (fun i => (List.range N).map (fun j => (i, j)))).filter
    (fun p => decide (p.1 < p.2))

/-- One iteration of the inner double loop of `sphere_cluster_tmatrix`:
the `s - 2u < r` guard (line 37), the translation-operator call (line 39)
and the sixteen assignments (lines 42-60). -/
def sphere_step (aC : CoefArr) (trans : TransOp) (d : V3) (i j : ℕ)
    (T : Tensor6) (it : Mode × Mode) : Tensor6 :=
  if (it.2.1 : ℤ) - 2 * it.2.2.2 < (it.1.1 : ℤ) then T
  else
    sphere_body T i j aC
      (trans it.1.2.2 it.1.2.1 it.2.2.2 it.2.2.1 d).1
      (trans it.1.2.2 it.1.2.1 it.2.2.2 it.2.2.1 d).2
      it.1.1 it.1.2.1 it.1.2.2 it.2.1 it.2.2.1 it.2.2.2

/-- One iteration of the inner double loop of `particle_cluster_tmatrix`
(guard line 110, call line 112, assignments lines 115-133). -/
def particle_step (trans : TransOp) (d : V3) (i j : ℕ)
    (T : Tensor6) (it : Mode × Mode) : Tensor6 :=
  if (it.2.1 : ℤ) - 2 * it.2.2.2 < (it.1.1 : ℤ) then T
  else
    particle_body T i j
      (trans it.1.2.2 it.1.2.1 it.2.2.2 it.2.2.1 d).1
      (trans it.1.2.2 it.1.2.1 it.2.2.2 it.2.2.1 d).2
      it.1.1 it.1.2.1 it.1.2.2 it.2.1 it.2.2.1 it.2.2.2

/-- The body of the particle-pair loop of `sphere_cluster_tmatrix` for one
pair `(i, j)`: separation `dji = positions[i] - positions[j]` (line 30) and
the double mode loop. -/
def sphere_pair_step (lmax : ℕ) (positions : ℕ → V3) (aC : CoefArr)
    (trans : TransOp) (T : Tensor6) (p : ℕ × ℕ) : Tensor6 :=
  (modePairs lmax).foldl
    (sphere_step aC trans (v3sub (positions p.1) (positions p.2)) p.1 p.2) T

/-- The body of the particle-pair loop of `particle_cluster_tmatrix`. -/
def particle_pair_step (lmax : ℕ) (positions : ℕ → V3)
    (trans : TransOp) (T : Tensor6) (p : ℕ × ℕ) : Tensor6 :=
  (modePairs lmax).foldl
    (particle_step trans (v3sub (positions p.1) (positions p.2)) p.1 p.2) T

/-- The `interaction_matrix` built by `sphere_cluster_tmatrix`
(lines 24-60). -/
def sphere_interaction (N lmax : ℕ) (positions : ℕ → V3) (aC : CoefArr)
    (trans : TransOp) : Tensor6 :=
  (particlePairs N).foldl (sphere_pair_step lmax positions aC trans) zero6

/-- The `interaction_matrix` of `particle_cluster_tmatrix` before the einsum
against the per-particle T-matrices (lines 97-133), for the mode truncation
`lmax`; the recovery of `lmax` from `rmax` (line 93, `rmax_to_lmax`), which
fails on an invalid `rmax`, is performed by `particle_cluster_tmatrix`
before this loop runs. -/
def particle_interaction (N lmax : ℕ) (positions : ℕ → V3)
    (trans : TransOp) : Tensor6 :=
  (particlePairs N).foldl
    (particle_pair_step lmax positions trans) zero6

/-- The `identity` array of lines 21-22 / 94-95: `np.zeros` followed by
`np.einsum('airair->air', identity)[...] = 1`, i.e. the rank-6 Kronecker
delta over in-range (particle, polarization, mode) triples. -/
def identityT (N rmax : ℕ) : Tensor6 := fun i a r j c s =>
  if i = j ∧ a = c ∧ r = s ∧ i < N ∧ a < 2 ∧ r < rmax then 1 else 0

/-- `sphere_cluster_tmatrix` (lines 9-63): `identity + interaction_matrix`,
with `rmax = lmax_to_rmax(lmax)` (line 20) and `lmax = a.shape[-1]`. -/
def sphere_cluster_tmatrix (N lmax : ℕ) (positions : ℕ → V3) (aC : CoefArr)
    (trans : TransOp) : Tensor6 := fun i a r j c s =>
  identityT N (Lmax_to_rmax lmax) i a r j c s +
    sphere_interaction N lmax positions aC trans i a r j c s

/-- Error taxonomy named by the specification (§7): `ConfigurationError`
(invalid lmax/rmax pairing, degenerate geometry), `ShapeError`,
`SingularSystemError`.  In the code under src/ none of these is ever
constructed; the only spec-modelled raiser is `rmax_to_lmax`
(`ConfigurationError` on an invalid `rmax`). -/
inductive MiepyError : Type where
  | configurationError : MiepyError
  | shapeError : MiepyError
  | singularSystemError : MiepyError
deriving DecidableEq

/-- The einsum `'iabjcd,jcdef->iabjef'` of line 135, contracting the pairwise
coupling block against each source particle's T-matrix over the
(polarization, mode) pair `(c, d)`. -/
def einsumContract (M : Tensor6) (tm : TMArr) (rmax : ℕ) : Tensor6 :=
  fun i a b j e f =>
    ((List.range 2).map (fun c =>
      ((List.range rmax).map (fun d => M i a b j c d * tm j c d e f)).sum)).sum

/-- `particle_cluster_tmatrix` (lines 82-137): recover
`lmax = rmax_to_lmax(rmax)` from `rmax = tmatrix.shape[-1]` (lines 92-93) —
this helper call fails with the spec's `ConfigurationError` (§4.1) when
`rmax` is not `l*(l+2)` for any `l` — then return
`identity + einsum(...)`.  The body contains no other check and no raise
statement of its own (helper-name lookups modelled as their intended
targets; in the shipped package the first lookup in fact raises
`AttributeError`, see the attribute-resolution model). -/
def particle_cluster_tmatrix (N rmax : ℕ) (positions : ℕ → V3) (tm : TMArr)
    (trans : TransOp) : Except MiepyError Tensor6 :=
  match rmax_to_Lmax rmax with
  | none => .error .configurationError
  | some lmax => .ok (fun i a b j e f =>
      identityT N rmax i a b j e f +
        einsumContract (particle_interaction N lmax positions trans)
          tm rmax i a b j e f)

/-- The shape argument of the `np.zeros` calls building `identity` and
`interaction_matrix` (lines 21, 24 / 94, 97) and hence the shape of the
returned operator: particle axis first, then polarization, then mode. -/
def sphere_tshape (N rmax : ℕ) : List ℕ := [N, 2, rmax, N, 2, rmax]

/-- The chronological list of translation-operator invocations the
assemblers make: one call per particle pair `(i, j)`, `i < j`, per ordered
mode pair passing the `s - 2u < r` guard (identical loop structure in both
assemblers, lines 26-39 and 99-112). -/
def transCalls (N lmax : ℕ) : List (ℕ × ℕ × (Mode × Mode)) :=
  (particlePairs N).flatMap (fun p =>
    (modePairs lmax).filterMap (fun it =>
      if (it.2.1 : ℤ) - 2 * it.2.2.2 < (it.1.1 : ℤ) then none
      else some (p.1, p.2, it)))

/-- Effect model of a call to `sphere_cluster_tmatrix`: the function body
(lines 9-63) contains no raise statement and no validity check of its inputs
— neither of the separation distances (degenerate positions included) nor of
shape consistency — and its only helper, `lmax_to_rmax`, is total, so as an
effectful computation it always returns normally with the assembled tensor.
This models the body with the helper-name lookups resolved to their intended
targets; the name-resolution layer, under which every call in the shipped
package aborts with `AttributeError` first, is modelled separately by
`firstFailingAttr`. -/
def sphere_cluster_run (N lmax : ℕ) (positions : ℕ → V3) (aC : CoefArr)
    (trans : TransOp) : Except MiepyError Tensor6 :=
  .ok (sphere_cluster_tmatrix N lmax positions aC trans)

/-- Support invariant of the interaction matrices: nonzero entries lie in
bounds and couple two distinct particles. -/
def Supp (N rmax : ℕ) (T : Tensor6) : Prop :=
  ∀ i a r j c s, T i a r j c s ≠ 0 →
    i < N ∧ a < 2 ∧ r < rmax ∧ j < N ∧ c < 2 ∧ s < rmax ∧ i ≠ j

/-- The grouped multi-index of the reshaped square system solved by
`np.linalg.tensorsolve`: one (particle, polarization, mode) triple. -/
abbrev ClusterIdx (N rmax : ℕ) : Type := Fin N × Fin 2 × Fin rmax

/-- The assembled rank-6 operator viewed as the square matrix of the reshaped
linear system of size `N*2*rmax` (the reshape performed inside
`np.linalg.tensorsolve(A, p_src)`, which groups the trailing three axes). -/
def asMatrix (N rmax : ℕ) (T : Tensor6) :
    Matrix (ClusterIdx N rmax) (ClusterIdx N rmax) ℂ :=
  fun p q => T p.1.1 p.2.1.1 p.2.2.1 q.1.1 q.2.1.1 q.2.2.1

/-- A source array `p_src[N,2,rmax]` viewed as the right-hand-side vector of
the reshaped system. -/
def srcVec (N rmax : ℕ) (src : SrcArr) : ClusterIdx N rmax → ℂ :=
  fun p => src p.1.1 p.2.1.1 p.2.2.1

/-- The contraction `T·x` over the (particle, polarization, mode) triple:
the linear map the reshaped square system represents. -/
noncomputable def contractFin (N rmax : ℕ) (T : Tensor6)
    (x : ClusterIdx N rmax → ℂ) : ClusterIdx N rmax → ℂ :=
  fun p => ∑ q : ClusterIdx N rmax,
    T p.1.1 p.2.1.1 p.2.2.1 q.1.1 q.2.1.1 q.2.2.1 * x q

/-- Modelled from the spec (§4.4): the dense solve `np.linalg.tensorsolve`
(an external numerical routine, not part of this repository): reshape to the
square system, return its unique solution when the matrix is invertible, and
fail (the spec's `SingularSystemError`; numpy's `LinAlgError`) when it is
singular. -/
noncomputable def tensorsolve {d : Type} [Fintype d] [DecidableEq d]
    (M : Matrix d d ℂ) (b : d → ℂ) : Except MiepyError (d → ℂ) :=
  haveI := Classical.propDecidable (IsUnit M.det)
  if IsUnit M.det then .ok (M⁻¹.mulVec b) else .error .singularSystemError

/-- `solve_sphere_cluster` (lines 65-78): assemble, then one dense solve. -/
noncomputable def solve_sphere_cluster (N lmax : ℕ) (positions : ℕ → V3)
    (aC : CoefArr) (p_src : SrcArr) (trans : TransOp) :
    Except MiepyError (ClusterIdx N (Lmax_to_rmax lmax) → ℂ) :=
  tensorsolve
    (asMatrix N (Lmax_to_rmax lmax) (sphere_cluster_tmatrix N lmax positions aC trans))
    (srcVec N (Lmax_to_rmax lmax) p_src)

/-- `solve_particle_cluster` (lines 139-152): assemble — propagating the
assembler's failure, if any — then one dense solve. -/
noncomputable def solve_particle_cluster (N rmax : ℕ) (positions : ℕ → V3)
    (tm : TMArr) (p_src : SrcArr) (trans : TransOp) :
    Except MiepyError (ClusterIdx N rmax → ℂ) :=
  match particle_cluster_tmatrix N rmax positions tm trans with
  | .error e => .error e
  | .ok A => tensorsolve (asMatrix N rmax A) (srcVec N rmax p_src)

/-- The spec's construction for the round-trip refinement check (§8):
per-particle T-matrices that are purely diagonal, carrying the scalar Mie
coefficient of the matching polarization and degree on the diagonal
(`a[j, c, n_d - 1]` at diagonal slot `(c, d)` with `n_d` the degree of mode
`d`) and zero elsewhere. -/
def diagTM (aC : CoefArr) : TMArr := fun j c d e f =>
  if c = e ∧ d = f then aC j c (degOf d - 1) else 0

/-- Relabeling of the two particles of an `N = 2` configuration. -/
def swapIdx (x : ℕ) : ℕ := if x = 0 then 1 else if x = 1 then 0 else x

/-- Positions array with the two particle rows exchanged. -/
def swapPos (positions : ℕ → V3) : ℕ → V3 := fun i => positions (swapIdx i)

/-- Mie-coefficient array with the two particle rows exchanged. -/
def swapCoef (aC : CoefArr) : CoefArr := fun i p d => aC (swapIdx i) p d

/-- The attribute names bound on the package `miepy` by
`src/miepy/__init__.py` (imported submodules and from-imported names). -/
def miepy_top_names : List String :=
  ["sources", "scattering", "materials", "vsh", "forces",
   "mie_sphere", "single_mie_sphere", "mie_core_shell", "single_mie_core_shell",
   "constant_material", "function_material", "data_material",
   "gmt", "spheres",
   "scattering_per_multipole", "absorbption_per_multipole",
   "extinction_per_multipole", "cross_sections"]

/-- The attribute names bound on the package `miepy.vsh` by
`src/miepy/vsh/__init__.py` (imported submodules and from-imported names;
`misc` is additionally bound as a side effect of
`from miepy.vsh.misc import simps_2d` in forces.py). -/
def miepy_vsh_names : List String :=
  ["special", "mode_indices", "rmax_to_Lmax", "Lmax_to_rmax",
   "vsh_functions", "Emn", "VSH_mode", "get_zn", "VSH",
   "vsh_normalization_values",
   "vsh_translation", "expansion", "expand_E", "expand_E_far",
   "expand_H", "expand_H_far",
   "decomposition", "near_field_point_matching", "far_field_point_matching",
   "integral_project_fields_onto", "integral_project_fields",
   "integral_project_source",
   "cluster_coefficients", "misc"]

/-- Python attribute lookup on the two module objects the interaction code
dereferences: `True` exactly when the attribute exists (otherwise the access
raises `AttributeError`). -/
def resolveAttr (mod attr : String) : Bool :=
  if mod = "miepy" then miepy_top_names.contains attr
  else if mod = "miepy.vsh" then miepy_vsh_names.contains attr
  else false

/-- The module-attribute accesses `sphere_cluster_tmatrix` performs, in
program order, up to and including its first translation-operator call:
line 20 (`miepy.vsh.lmax_to_rmax`), line 35 and 36 (`miepy.mode_indices`),
line 39-40 (`miepy.vsh.vsh_translation` and `miepy.VSH_mode`). -/
def sphere_cluster_attr_refs : List (String × String) :=
  [("miepy.vsh", "lmax_to_rmax"), ("miepy", "mode_indices"),
   ("miepy", "mode_indices"), ("miepy.vsh", "vsh_translation"),
   ("miepy", "VSH_mode")]

/-- The module-attribute accesses `particle_cluster_tmatrix` performs, in
program order (line 93, 108, 109, 112-113). -/
def particle_cluster_attr_refs : List (String × String) :=
  [("miepy.vsh", "rmax_to_lmax"), ("miepy", "mode_indices"),
   ("miepy", "mode_indices"), ("miepy.vsh", "vsh_translation"),
   ("miepy", "VSH_mode")]

/-- The module-attribute accesses `forces.torque` performs, in program order
(line 32: `miepy.vsh.rmax_to_lmax`, line 36: `miepy.mode_indices`). -/
def torque_attr_refs : List (String × String) :=
  [("miepy.vsh", "rmax_to_lmax"), ("miepy", "mode_indices")]

/-- The first attribute access of a call that fails to resolve (the point
at which Python raises `AttributeError`), if any. -/
def firstFailingAttr (refs : List (String × String)) :
    Option (String × String) :=
  refs.find? (fun p => !(resolveAttr p.1 p.2))

/-- Pointwise relation between the two interaction matrices: the scalar
assembler's entry is the T-matrix assembler's raw entry scaled by the source
particle's Mie coefficient of the destination polarization and degree. -/
def ScaledBy (aC : CoefArr) (S P : Tensor6) : Prop :=
  ∀ x1 x2 x3 x4 x5 x6, S x1 x2 x3 x4 x5 x6 =
    P x1 x2 x3 x4 x5 x6 * aC x4 x5 (degOf x6 - 1)

/-- Pointwise relation between the operator assembled after exchanging the
two particles of an `N = 2` configuration and the original operator:
equality up to relabeling both particle axes. -/
def SwappedOf (T2 T : Tensor6) : Prop :=
  ∀ x1 x2 x3 x4 x5 x6, T2 x1 x2 x3 x4 x5 x6 =
    T (swapIdx x1) x2 x3 (swapIdx x4) x5 x6

theorem sgn_add (x y : ℤ) : sgn (x + y) = sgn x * sgn y := by
  unfold sgn
  split_ifs <;> first | omega | norm_num

theorem sgn_mul_sgn (x : ℤ) : sgn x * sgn x = 1 := by
  unfold sgn; split_ifs <;> norm_num

theorem rmax_to_Lmax_Lmax_to_rmax (l : ℕ) :
    rmax_to_Lmax (Lmax_to_rmax l) = some l := by
  have h1 : l * (l + 2) + 1 = (l + 1) * (l + 1) := by ring
  unfold rmax_to_Lmax Lmax_to_rmax
  rw [h1, Nat.sqrt_eq]
  simp

/-- Membership characterization of the mode enumerator. -/
theorem mem_mode_indices (lmax : ℕ) (r n : ℕ) (m : ℤ) :
    (r, n, m) ∈ mode_indices lmax ↔
      1 ≤ n ∧ n ≤ lmax ∧ -(n : ℤ) ≤ m ∧ m ≤ (n : ℤ) ∧
        (r : ℤ) = n * n + n + m - 1 := by
  unfold mode_indices
  simp only [List.mem_flatMap, List.mem_map, List.mem_range, Prod.mk.injEq]
  constructor
  · rintro ⟨k, hk, j, hj, hr, hn, hm⟩
    subst hn
    have hq : 0 < (k + 1) * (k + 1) := Nat.mul_pos (Nat.succ_pos k) (Nat.succ_pos k)
    refine ⟨by omega, by omega, by omega, by omega, ?_⟩
    rw [← Nat.cast_mul]
    omega
  · rintro ⟨h1, h2, h3, h4, h5⟩
    have hq : 0 < n * n := Nat.mul_pos (by omega) (by omega)
    refine ⟨n - 1, by omega, (m + n).toNat, by omega, ?_, by omega, by omega⟩
    have hn : n - 1 + 1 = n := by omega
    rw [hn]
    rw [← Nat.cast_mul] at h5
    omega

/-- For a valid mode `(s, v, u)`, the degree recovered from the linear index
is `v` (the scalar assembler relies on this when it indexes `a[j,·,v-1]`). -/
theorem degOf_eq (lmax s v : ℕ) (u : ℤ) (h : (s, v, u) ∈ mode_indices lmax) :
    degOf s = v := by
  rw [mem_mode_indices] at h
  obtain ⟨h1, _, h3, h4, h5⟩ := h
  rw [← Nat.cast_mul] at h5
  have hs : s + 1 = v * v + ((v : ℤ) + u).toNat := by omega
  have ha : ((v : ℤ) + u).toNat ≤ v + v := by omega
  rw [degOf, hs]
  exact Nat.sqrt_add_eq v ha

/-- Every mode index enumerated for a given `lmax` is below
`rmax = lmax*(lmax+2)`. -/
theorem mode_index_lt (lmax r n : ℕ) (m : ℤ) (h : (r, n, m) ∈ mode_indices lmax) :
    r < Lmax_to_rmax lmax := by
  rw [mem_mode_indices] at h
  obtain ⟨h1, h2, h3, h4, h5⟩ := h
  rw [← Nat.cast_mul] at h5
  have hnl : n * n ≤ lmax * lmax := Nat.mul_le_mul h2 h2
  unfold Lmax_to_rmax
  have : lmax * (lmax + 2) = lmax * lmax + 2 * lmax := by ring
  omega

/-- The companion index `s - 2u` of a valid mode `(s, v, u)` is the valid
linear index of the mode `(v, -u)` (and in particular is nonnegative). -/
theorem conj_mem_mode_indices (lmax s v : ℕ) (u : ℤ)
    (h : (s, v, u) ∈ mode_indices lmax) :
    0 ≤ (s : ℤ) - 2 * u ∧
      (((s : ℤ) - 2 * u).toNat, v, -u) ∈ mode_indices lmax := by
  rw [mem_mode_indices] at h
  obtain ⟨h1, h2, h3, h4, h5⟩ := h
  rw [← Nat.cast_mul] at h5
  have hq : 0 < v * v := Nat.mul_pos (by omega) (by omega)
  have h0 : 0 ≤ (s : ℤ) - 2 * u := by omega
  refine ⟨h0, ?_⟩
  rw [mem_mode_indices, ← Nat.cast_mul]
  refine ⟨h1, h2, by omega, by omega, by omega⟩

theorem upd6_apply (T : Tensor6) (i a r j c s : ℕ) (w : ℂ)
    (i' a' r' j' c' s' : ℕ) :
    upd6 T i a r j c s w i' a' r' j' c' s' =
      if (i', a', r', j', c', s') = (i, a, r, j, c, s) then w
      else T i' a' r' j' c' s' := rfl

/-- Fold induction: a predicate preserved by every step holds of the fold. -/
theorem foldlPreserve {α β : Type _} (P : β → Prop) (f : β → α → β) :
    ∀ (L : List α) (init : β), P init →
      (∀ b x, x ∈ L → P b → P (f b x)) → P (L.foldl f init) := by
  intro L
  induction L with
  | nil => intro init h0 _; exact h0
  | cons hd tl ih =>
      intro init h0 hstep
      exact ih _ (hstep _ _ (by simp) h0)
        (fun b x hx hb => hstep b x (by simp [hx]) hb)

theorem supp_zero6 (N rmax : ℕ) : Supp N rmax zero6 := by
  intro i a r j c s h
  exact absurd rfl h

theorem supp_upd6 {N rmax : ℕ} {T : Tensor6} {i a r j c s : ℕ} {w : ℂ}
    (hT : Supp N rmax T)
    (hidx : i < N ∧ a < 2 ∧ r < rmax ∧ j < N ∧ c < 2 ∧ s < rmax ∧ i ≠ j) :
    Supp N rmax (upd6 T i a r j c s w) := by
  intro i' a' r' j' c' s' h
  rw [upd6_apply] at h
  by_cases heq : (i', a', r', j', c', s') = (i, a, r, j, c, s)
  · simp only [Prod.mk.injEq] at heq
    obtain ⟨f1, f2, f3, f4, f5, f6⟩ := heq
    subst f1 f2 f3 f4 f5 f6
    exact hidx
  · rw [if_neg heq] at h
    exact hT i' a' r' j' c' s' h

theorem supp_sphere_body {N rmax : ℕ} {T : Tensor6} {i j : ℕ} {aC : CoefArr}
    {A B : ℂ} {r n : ℕ} {m : ℤ} {s v : ℕ} {u : ℤ}
    (hT : Supp N rmax T) (hi : i < N) (hj : j < N) (hij : i ≠ j)
    (hr : r < rmax) (hs : s < rmax)
    (hsc : ((s : ℤ) - 2 * u).toNat < rmax)
    (hrc : ((r : ℤ) - 2 * m).toNat < rmax) :
    Supp N rmax (sphere_body T i j aC A B r n m s v u) := by
  simp only [sphere_body]
  iterate 16 refine supp_upd6 ?_ (by omega)
  exact hT

theorem supp_particle_body {N rmax : ℕ} {T : Tensor6} {i j : ℕ}
    {A B : ℂ} {r n : ℕ} {m : ℤ} {s v : ℕ} {u : ℤ}
    (hT : Supp N rmax T) (hi : i < N) (hj : j < N) (hij : i ≠ j)
    (hr : r < rmax) (hs : s < rmax)
    (hsc : ((s : ℤ) - 2 * u).toNat < rmax)
    (hrc : ((r : ℤ) - 2 * m).toNat < rmax) :
    Supp N rmax (particle_body T i j A B r n m s v u) := by
  simp only [particle_body]
  iterate 16 refine supp_upd6 ?_ (by omega)
  exact hT

theorem mem_modePairs (lmax : ℕ) (it : Mode × Mode) :
    it ∈ modePairs lmax ↔
      it.1 ∈ mode_indices lmax ∧ it.2 ∈ mode_indices lmax := by
  unfold modePairs
  simp only [List.mem_flatMap, List.mem_map]
  constructor
  · rintro ⟨p, hp, q, hq, heq⟩
    subst heq
    exact ⟨hp, hq⟩
  · rintro ⟨hp, hq⟩
    exact ⟨it.1, hp, it.2, hq, rfl⟩

theorem mem_particlePairs (N : ℕ) (p : ℕ × ℕ) :
    p ∈ particlePairs N ↔ p.1 < p.2 ∧ p.2 < N := by
  unfold particlePairs
  simp only [List.mem_filter, List.mem_flatMap, List.mem_map, List.mem_range,
    decide_eq_true_eq]
  constructor
  · rintro ⟨⟨i, hi, j, hj, heq⟩, hlt⟩
    subst heq
    exact ⟨hlt, hj⟩
  · rintro ⟨hlt, hN⟩
    exact ⟨⟨p.1, by omega, p.2, hN, rfl⟩, hlt⟩

theorem rmax_to_Lmax_some (rmax l : ℕ) (h : rmax_to_Lmax rmax = some l) :
    Lmax_to_rmax l = rmax := by
  unfold rmax_to_Lmax at h
  split_ifs at h with hc
  obtain rfl : Nat.sqrt (rmax + 1) - 1 = l := by injection h
  exact hc

theorem mode_indices_zero : mode_indices 0 = [] := rfl

theorem supp_sphere_interaction (N lmax : ℕ) (positions : ℕ → V3)
    (aC : CoefArr) (trans : TransOp) :
    Supp N (Lmax_to_rmax lmax) (sphere_interaction N lmax positions aC trans) := by
  unfold sphere_interaction
  refine foldlPreserve _ _ _ _ (supp_zero6 _ _) ?_
  intro T p hp hT
  rw [mem_particlePairs] at hp
  unfold sphere_pair_step
  refine foldlPreserve _ _ _ _ hT ?_
  intro T2 it hit hT2
  rw [mem_modePairs] at hit
  obtain ⟨⟨r, n, m⟩, ⟨s, v, u⟩⟩ := it
  obtain ⟨h1, h2⟩ := hit
  unfold sphere_step
  dsimp only
  split
  · exact hT2
  · have hr := mode_index_lt lmax r n m h1
    have hs := mode_index_lt lmax s v u h2
    have hsc := mode_index_lt lmax _ v (-u) (conj_mem_mode_indices lmax s v u h2).2
    have hrc := mode_index_lt lmax _ n (-m) (conj_mem_mode_indices lmax r n m h1).2
    exact supp_sphere_body hT2 (by omega) (by omega) (by omega) hr hs hsc hrc

theorem supp_particle_interaction (N lmax : ℕ) (positions : ℕ → V3)
    (trans : TransOp) :
    Supp N (Lmax_to_rmax lmax) (particle_interaction N lmax positions trans) := by
  unfold particle_interaction
  refine foldlPreserve _ _ _ _ (supp_zero6 _ _) ?_
  intro T p hp hT
  rw [mem_particlePairs] at hp
  unfold particle_pair_step
  refine foldlPreserve _ _ _ _ hT ?_
  intro T2 it hit hT2
  rw [mem_modePairs] at hit
  obtain ⟨⟨r, n, m⟩, ⟨s, v, u⟩⟩ := it
  obtain ⟨h1, h2⟩ := hit
  unfold particle_step
  dsimp only
  split
  · exact hT2
  · have hr := mode_index_lt lmax r n m h1
    have hs := mode_index_lt lmax s v u h2
    have hsc := mode_index_lt lmax _ v (-u) (conj_mem_mode_indices lmax s v u h2).2
    have hrc := mode_index_lt lmax _ n (-m) (conj_mem_mode_indices lmax r n m h1).2
    exact supp_particle_body hT2 (by omega) (by omega) (by omega) hr hs hsc hrc

/-- Reduction of the particle-cluster assembler on an invalid `rmax`
(no integer `lmax` reproduces it): the spec-modelled `rmax_to_lmax`
failure (`ConfigurationError`) propagates. -/
theorem particle_cluster_tmatrix_invalid (N rmax : ℕ) (positions : ℕ → V3)
    (tm : TMArr) (trans : TransOp) (h : rmax_to_Lmax rmax = none) :
    particle_cluster_tmatrix N rmax positions tm trans =
      .error .configurationError := by
  unfold particle_cluster_tmatrix
  rw [h]

/-- Reduction of the particle-cluster assembler on a valid `rmax`. -/
theorem particle_cluster_tmatrix_valid (N rmax : ℕ) (positions : ℕ → V3)
    (tm : TMArr) (trans : TransOp) (l : ℕ) (h : rmax_to_Lmax rmax = some l) :
    particle_cluster_tmatrix N rmax positions tm trans =
      .ok (fun i a b j e f =>
        identityT N rmax i a b j e f +
          einsumContract (particle_interaction N l positions trans)
            tm rmax i a b j e f) := by
  unfold particle_cluster_tmatrix
  rw [h]

/-- Restricted to the reshaped square system, the `N = whatever` identity
tensor is the identity matrix. -/
theorem asMatrix_identityT (N rmax : ℕ) :
    asMatrix N rmax (identityT N rmax) = 1 := by
  funext p q
  simp only [asMatrix, identityT, Matrix.one_apply, Prod.ext_iff, Fin.ext_iff]
  have h1 := p.1.isLt
  have h2 := p.2.1.isLt
  have h3 := p.2.2.isLt
  by_cases h : (p.1 : ℕ) = (q.1 : ℕ) ∧ (p.2.1 : ℕ) = (q.2.1 : ℕ) ∧
      (p.2.2 : ℕ) = (q.2.2 : ℕ)
  · rw [if_pos ⟨h.1, h.2.1, h.2.2, by omega, by omega, by omega⟩, if_pos h]
  · rw [if_neg ?_, if_neg h]
    intro hc
    exact h ⟨hc.1, hc.2.1, hc.2.2.1⟩

/-- The rank-6 contraction is the matrix-vector product of the reshaped
square system. -/
theorem contractFin_eq_mulVec (N rmax : ℕ) (T : Tensor6)
    (x : ClusterIdx N rmax → ℂ) :
    contractFin N rmax T x = (asMatrix N rmax T).mulVec x := rfl

theorem tensorsolve_of_isUnit {d : Type} [Fintype d] [DecidableEq d]
    (M : Matrix d d ℂ) (b : d → ℂ) (h : IsUnit M.det) :
    tensorsolve M b = .ok (M⁻¹.mulVec b) := by
  unfold tensorsolve
  rw [if_pos h]

theorem tensorsolve_of_singular {d : Type} [Fintype d] [DecidableEq d]
    (M : Matrix d d ℂ) (b : d → ℂ) (h : ¬ IsUnit M.det) :
    tensorsolve M b = .error .singularSystemError := by
  unfold tensorsolve
  rw [if_neg h]

theorem transCalls_mem_first (N lmax : ℕ) (hN : 2 ≤ N) (hl : 1 ≤ lmax) :
    (0, 1, ((0, 1, (-1 : ℤ)), (0, 1, (-1 : ℤ)))) ∈ transCalls N lmax := by
  unfold transCalls
  rw [List.mem_flatMap]
  refine ⟨(0, 1), by rw [mem_particlePairs]; omega, ?_⟩
  rw [List.mem_filterMap]
  refine ⟨((0, 1, (-1 : ℤ)), (0, 1, (-1 : ℤ))), ?_, ?_⟩
  · rw [mem_modePairs]
    constructor <;>
      · rw [mem_mode_indices]
        refine ⟨by omega, by omega, by omega, by omega, by norm_num⟩
  · rw [if_neg (by norm_num)]

/-- C10: the helper names the two assemblers and `forces.torque` dereference
at call time do not exist in the package interface: `miepy.vsh` exports only
`Lmax_to_rmax` and `rmax_to_Lmax` (capital L), never `lmax_to_rmax` or
`rmax_to_lmax`, and `mode_indices` / `VSH_mode` are not bound on the
top-level `miepy` package; the very first module-attribute access of each of
these functions is the one that fails, so every call raises an
`AttributeError` before any translation-operator access or tensor assembly. -/
theorem c10_missing_names :
    firstFailingAttr sphere_cluster_attr_refs = some ("miepy.vsh", "lmax_to_rmax") ∧
    firstFailingAttr particle_cluster_attr_refs = some ("miepy.vsh", "rmax_to_lmax") ∧
    firstFailingAttr torque_attr_refs = some ("miepy.vsh", "rmax_to_lmax") ∧
    sphere_cluster_attr_refs.head? = some ("miepy.vsh", "lmax_to_rmax") ∧
    particle_cluster_attr_refs.head? = some ("miepy.vsh", "rmax_to_lmax") ∧
    torque_attr_refs.head? = some ("miepy.vsh", "rmax_to_lmax") ∧
    resolveAttr "miepy" "mode_indices" = false ∧
    resolveAttr "miepy" "VSH_mode" = false ∧
    resolveAttr "miepy.vsh" "lmax_to_rmax" = false ∧
    resolveAttr "miepy.vsh" "rmax_to_lmax" = false ∧
    resolveAttr "miepy.vsh" "Lmax_to_rmax" = true ∧
    resolveAttr "miepy.vsh" "rmax_to_Lmax" = true ∧
    resolveAttr "miepy.vsh" "mode_indices" = true ∧
    resolveAttr "miepy.vsh" "VSH_mode" = true := by
  refine ⟨rfl, rfl, rfl, rfl, rfl, rfl, rfl, rfl, rfl, rfl, rfl, rfl, rfl, rfl⟩

/-- C7 counterexample: at a concrete configuration with two particles at the
identical position (separation distance zero), the assembler performs no
rejection at all: the call returns normally with the assembled tensor, so no
`ConfigurationError` is raised before (or during) assembly. -/
theorem c7_counterexample :
    sphere_cluster_run 2 1 (fun _ => ((0 : ℝ), 0, 0)) (fun _ _ _ => 1)
        (fun _ _ _ _ _ => (0, 0)) =
      .ok (sphere_cluster_tmatrix 2 1 (fun _ => ((0 : ℝ), 0, 0))
        (fun _ _ _ => 1) (fun _ _ _ _ _ => (0, 0))) := rfl

/-- C7 (amended): the assemblers contain no degenerate-position guard: no
code path inspects particle positions or separations for validity, and no
`ConfigurationError` is ever raised on account of particle positions — a
zero-separation configuration proceeds into assembly like any other, the
singularity passing to the geometry computation (`dji[2]/r_ji`) and the
translation operator rather than being rejected before assembly.  The
sphere-cluster assembler raises nothing at all; the particle-cluster
assembler's sole `ConfigurationError` is the spec-modelled `rmax_to_lmax`
helper failure (line 93), determined by `rmax` alone, independent of the
positions.  (Both model the bodies with helper names resolved to their
intended targets; in the shipped package every call aborts even earlier
with `AttributeError`, see C10.) -/
theorem c7_no_degenerate_position_guard (N lmax rmax : ℕ)
    (positions positions2 : ℕ → V3) (aC : CoefArr) (tm : TMArr)
    (trans : TransOp) :
    sphere_cluster_run N lmax positions aC trans =
      .ok (sphere_cluster_tmatrix N lmax positions aC trans) ∧
    (particle_cluster_tmatrix N rmax positions tm trans =
        .error .configurationError ↔ rmax_to_Lmax rmax = none) ∧
    (∀ e : MiepyError,
      particle_cluster_tmatrix N rmax positions tm trans = .error e ↔
        particle_cluster_tmatrix N rmax positions2 tm trans = .error e) := by
  refine ⟨rfl, ?_, ?_⟩
  · rcases hopt : rmax_to_Lmax rmax with _ | l
    · rw [particle_cluster_tmatrix_invalid N rmax positions tm trans hopt]
      simp [hopt]
    · rw [particle_cluster_tmatrix_valid N rmax positions tm trans l hopt]
      simp [hopt]
  · intro e
    rcases hopt : rmax_to_Lmax rmax with _ | l
    · rw [particle_cluster_tmatrix_invalid N rmax positions tm trans hopt,
        particle_cluster_tmatrix_invalid N rmax positions2 tm trans hopt]
    · rw [particle_cluster_tmatrix_valid N rmax positions tm trans l hopt,
        particle_cluster_tmatrix_valid N rmax positions2 tm trans l hopt]
      simp

/-- C7 witness: the characterization instantiated at a concrete degenerate
two-particle configuration (both particles at the origin) with a valid
`rmax = 3`: the sphere call returns the assembled tensor and the particle
call raises no `ConfigurationError`. -/
theorem c7_no_degenerate_position_guard_witness :
    sphere_cluster_run 2 1 (fun _ => ((0 : ℝ), 0, 0)) (fun _ _ _ => 1)
        (fun _ _ _ _ _ => (0, 0)) =
      .ok (sphere_cluster_tmatrix 2 1 (fun _ => ((0 : ℝ), 0, 0))
        (fun _ _ _ => 1) (fun _ _ _ _ _ => (0, 0))) ∧
    (particle_cluster_tmatrix 2 3 (fun _ => ((0 : ℝ), 0, 0))
        (fun _ _ _ _ _ => 1) (fun _ _ _ _ _ => (0, 0)) =
        .error .configurationError ↔ rmax_to_Lmax 3 = none) ∧
    (∀ e : MiepyError,
      particle_cluster_tmatrix 2 3 (fun _ => ((0 : ℝ), 0, 0))
          (fun _ _ _ _ _ => 1) (fun _ _ _ _ _ => (0, 0)) = .error e ↔
        particle_cluster_tmatrix 2 3 (fun i => ((i : ℝ), 0, 0))
          (fun _ _ _ _ _ => 1) (fun _ _ _ _ _ => (0, 0)) = .error e) :=
  c7_no_degenerate_position_guard 2 1 3 (fun _ => ((0 : ℝ), 0, 0))
    (fun i => ((i : ℝ), 0, 0)) (fun _ _ _ => 1) (fun _ _ _ _ _ => 1)
    (fun _ _ _ _ _ => (0, 0))

/-- C8 counterexample: with the particle count taken from `positions`
(`N = 2`) and the truncation taken from the coefficient array (`lmax = 1`)
— the only shape information the code ever reads, with no cross-checking of
the remaining axes — the assembler performs translation-operator calls (six
of them) and returns normally; no `ShapeError` is ever raised, so a call
with disagreeing array dimensions does not fail before the first
translation-operator call. -/
theorem c8_counterexample :
    (transCalls 2 1).length = 6 ∧
    sphere_cluster_run 2 1 (fun _ => ((0 : ℝ), 0, 0)) (fun _ _ _ => 1)
        (fun _ _ _ _ _ => (0, 0)) ≠ .error .shapeError := by
  constructor
  · decide
  · intro h
    exact Except.noConfusion h

/-- C8 (amended): the code performs no shape-consistency validation and can
never raise a `ShapeError`: the assemblers read the particle count only from
`positions.shape[0]` and the truncation only from the coefficient /
T-matrix array's last axis, never cross-check the N or rmax dimensions of
the other inputs, and proceed to make translation-operator calls whenever
`N ≥ 2` and `lmax ≥ 1`, whether or not the remaining dimensions agree (in
Python, a genuine mismatch surfaces only later, as an out-of-range indexing
error in mid-assembly).  The particle-cluster assembler's only input check
is the `rmax_to_lmax` invertibility of its own `rmax` axis — a spec-modelled
`ConfigurationError`, not a `ShapeError`, and not a cross-array consistency
check. -/
theorem c8_no_shape_validation (N lmax rmax : ℕ) (positions : ℕ → V3)
    (aC : CoefArr) (tm : TMArr) (trans : TransOp) :
    (∀ e : MiepyError, sphere_cluster_run N lmax positions aC trans ≠ .error e) ∧
    particle_cluster_tmatrix N rmax positions tm trans ≠ .error .shapeError ∧
    (∀ e : MiepyError,
      particle_cluster_tmatrix N rmax positions tm trans = .error e →
        e = .configurationError ∧ rmax_to_Lmax rmax = none) ∧
    (2 ≤ N → 1 ≤ lmax → transCalls N lmax ≠ []) := by
  refine ⟨fun e h => Except.noConfusion h, ?_, ?_, ?_⟩
  · rcases hopt : rmax_to_Lmax rmax with _ | l
    · rw [particle_cluster_tmatrix_invalid N rmax positions tm trans hopt]
      intro h
      simp at h
    · rw [particle_cluster_tmatrix_valid N rmax positions tm trans l hopt]
      intro h
      exact Except.noConfusion h
  · intro e h
    rcases hopt : rmax_to_Lmax rmax with _ | l
    · rw [particle_cluster_tmatrix_invalid N rmax positions tm trans hopt] at h
      injection h with h2
      exact ⟨h2.symm, rfl⟩
    · rw [particle_cluster_tmatrix_valid N rmax positions tm trans l hopt] at h
      exact Except.noConfusion h
  · intro hN hl
    exact List.ne_nil_of_mem (transCalls_mem_first N lmax hN hl)

/-- C8 witness: a concrete instance of the amended statement at `N = 2`,
`lmax = 1`, `rmax = 3`. -/
theorem c8_no_shape_validation_witness :
    ((2 : ℕ) ≤ 2 ∧ (1 : ℕ) ≤ 1) ∧
      ((∀ e : MiepyError, sphere_cluster_run 2 1 (fun _ => ((0 : ℝ), 0, 0))
          (fun _ _ _ => 1) (fun _ _ _ _ _ => (0, 0)) ≠ .error e) ∧
       particle_cluster_tmatrix 2 3 (fun _ => ((0 : ℝ), 0, 0))
          (fun _ _ _ _ _ => 1) (fun _ _ _ _ _ => (0, 0)) ≠
         .error .shapeError ∧
       (∀ e : MiepyError,
         particle_cluster_tmatrix 2 3 (fun _ => ((0 : ℝ), 0, 0))
            (fun _ _ _ _ _ => 1) (fun _ _ _ _ _ => (0, 0)) = .error e →
           e = .configurationError ∧ rmax_to_Lmax 3 = none) ∧
       (2 ≤ 2 → 1 ≤ 1 → transCalls 2 1 ≠ [])) :=
  ⟨⟨le_refl 2, le_refl 1⟩,
    c8_no_shape_validation 2 1 3 (fun _ => ((0 : ℝ), 0, 0)) (fun _ _ _ => 1)
      (fun _ _ _ _ _ => 1) (fun _ _ _ _ _ => (0, 0))⟩

/-- C2 counterexample: at `lmax = 1` (modes `(0,1,-1)`, `(1,1,0)`,
`(2,1,1)`) and the particle pair `(0,1)`: the ordered mode pair
`r = s = (1,1)` (linear indices `r = s = 2`, so `s ≥ r`) is NOT given a
translation-operator call, while the pair `r = (1,1), s = (1,-1)` (indices
`r = 2 > s = 0`) IS — so the loop does not prune by `s ≥ r`. -/
theorem c2_counterexample :
    (2, 1, (1 : ℤ)) ∈ mode_indices 1 ∧
    (0, 1, (-1 : ℤ)) ∈ mode_indices 1 ∧
    (0, 1, ((2, 1, (1 : ℤ)), (2, 1, (1 : ℤ)))) ∉ transCalls 2 1 ∧
    (0, 1, ((2, 1, (1 : ℤ)), (0, 1, (-1 : ℤ)))) ∈ transCalls 2 1 := by
  decide

/-- C2 (amended): for every particle pair `(i, j)`, `i < j < N`, and modes
`(r,n,m)`, `(s,v,u)` of the enumeration, the double loop invokes the
translation operator exactly for the ordered mode pairs whose SECOND mode's
companion linear index `s - 2u` — the index of the mode `(v, -u)`, equal to
`v*v + v + (-u) - 1` — is not less than the first linear index `r`; pairs
with `s - 2u < r` are skipped (the pruning is on the companion index of
`s`, not on `s` itself). -/
theorem c2_guard_on_companion_index (N lmax i j r n s v : ℕ) (m u : ℤ) :
    (i, j, ((r, n, m), (s, v, u))) ∈ transCalls N lmax ↔
      i < j ∧ j < N ∧
        (r, n, m) ∈ mode_indices lmax ∧ (s, v, u) ∈ mode_indices lmax ∧
        (r : ℤ) ≤ (s : ℤ) - 2 * u ∧
        (s : ℤ) - 2 * u = v * v + v + (-u) - 1 := by
  unfold transCalls
  rw [List.mem_flatMap]
  constructor
  · rintro ⟨p, hp, hmem⟩
    rw [List.mem_filterMap] at hmem
    obtain ⟨it, hit, heq⟩ := hmem
    rw [mem_particlePairs] at hp
    by_cases hg : (it.2.1 : ℤ) - 2 * it.2.2.2 < (it.1.1 : ℤ)
    · rw [if_pos hg] at heq
      exact absurd heq (by simp)
    · rw [if_neg hg] at heq
      have heq2 : (p.1, p.2, it) = (i, j, ((r, n, m), (s, v, u))) := by
        injection heq
      obtain ⟨e1, e2, e3⟩ : p.1 = i ∧ p.2 = j ∧ it = ((r, n, m), (s, v, u)) := by
        simpa [Prod.ext_iff] using heq2
      subst e1 e2 e3
      rw [mem_modePairs] at hit
      dsimp only at hg
      have h5 := (mem_mode_indices lmax s v u).mp hit.2
      rw [← Nat.cast_mul] at h5
      refine ⟨hp.1, hp.2, hit.1, hit.2, by omega, ?_⟩
      rw [← Nat.cast_mul]
      omega
  · rintro ⟨h1, h2, h3, h4, h5, h6⟩
    refine ⟨(i, j), by rw [mem_particlePairs]; exact ⟨h1, h2⟩, ?_⟩
    rw [List.mem_filterMap]
    refine ⟨((r, n, m), (s, v, u)), by rw [mem_modePairs]; exact ⟨h3, h4⟩, ?_⟩
    rw [if_neg (by dsimp only; omega)]

/-- C2 witness: the amended characterization instantiated at a concrete
called pair. -/
theorem c2_guard_witness :
    (0, 1, ((0, 1, (-1 : ℤ)), (2, 1, (1 : ℤ)))) ∈ transCalls 2 1 ↔
      0 < 1 ∧ 1 < 2 ∧
        (0, 1, (-1 : ℤ)) ∈ mode_indices 1 ∧ (2, 1, (1 : ℤ)) ∈ mode_indices 1 ∧
        ((0 : ℕ) : ℤ) ≤ ((2 : ℕ) : ℤ) - 2 * 1 ∧
        ((2 : ℕ) : ℤ) - 2 * 1 = 1 * 1 + 1 + (-1) - 1 :=
  c2_guard_on_companion_index 2 1 0 1 0 1 2 1 (-1) 1

theorem sphere_interaction_diag (N lmax : ℕ) (positions : ℕ → V3)
    (aC : CoefArr) (trans : TransOp) (i a r c s : ℕ) :
    sphere_interaction N lmax positions aC trans i a r i c s = 0 := by
  by_contra h
  exact (supp_sphere_interaction N lmax positions aC trans
    i a r i c s h).2.2.2.2.2.2 rfl

theorem particle_interaction_diag (N lmax : ℕ) (positions : ℕ → V3)
    (trans : TransOp) (i a r c s : ℕ) :
    particle_interaction N lmax positions trans i a r i c s = 0 := by
  by_contra h
  exact (supp_particle_interaction N lmax positions trans
    i a r i c s h).2.2.2.2.2.2 rfl

theorem einsum_particle_diag (N lmax rmax : ℕ) (positions : ℕ → V3)
    (tm : TMArr) (trans : TransOp) (i a b e f : ℕ) :
    einsumContract (particle_interaction N lmax positions trans) tm rmax
      i a b i e f = 0 := by
  unfold einsumContract
  apply List.sum_eq_zero
  intro x hx
  rw [List.mem_map] at hx
  obtain ⟨c, _, rfl⟩ := hx
  apply List.sum_eq_zero
  intro y hy
  rw [List.mem_map] at hy
  obtain ⟨d, _, rfl⟩ := hy
  rw [particle_interaction_diag, zero_mul]

/-- C6 counterexample: at `N = 1`, `lmax = 1` (so `rmax = 3`) the `np.zeros`
shape of the assembled operator is `[1, 2, 3, 1, 2, 3]` — particle axis
first — and not the claimed `[2, 1, 3, 2, 1, 3]` polarization-first layout. -/
theorem c6_counterexample :
    sphere_tshape 1 (Lmax_to_rmax 1) = [1, 2, 3, 1, 2, 3] ∧
    sphere_tshape 1 (Lmax_to_rmax 1) ≠ [2, 1, 3, 2, 1, 3] := by
  decide

/-- C6 (amended): both assembled operators are rank-6 complex tensors of
shape `[N, 2, rmax, N, 2, rmax]` with axis order
[particle, polarization, mode, particle, polarization, mode] — particle
first, not polarization first — equal to Identity plus Coupling, where the
Identity part is the rank-6 Kronecker delta over in-range
(particle, polarization, mode) triples (the identity matrix of the reshaped
square system) and the Coupling part vanishes identically on every block
with equal particle indices `i = j`. -/
theorem c6_identity_plus_coupling (N lmax rmax : ℕ) (positions : ℕ → V3)
    (aC : CoefArr) (tm : TMArr) (trans : TransOp) :
    sphere_tshape N rmax = [N, 2, rmax, N, 2, rmax] ∧
    (∀ i a r j c s,
      sphere_cluster_tmatrix N lmax positions aC trans i a r j c s =
        identityT N (Lmax_to_rmax lmax) i a r j c s +
          sphere_interaction N lmax positions aC trans i a r j c s) ∧
    (∀ lmax0 T0, rmax_to_Lmax rmax = some lmax0 →
      particle_cluster_tmatrix N rmax positions tm trans = .ok T0 →
      ∀ i a r j c s, T0 i a r j c s =
        identityT N rmax i a r j c s +
          einsumContract (particle_interaction N lmax0 positions trans)
            tm rmax i a r j c s) ∧
    asMatrix N rmax (identityT N rmax) = 1 ∧
    (∀ i a r c s,
      sphere_interaction N lmax positions aC trans i a r i c s = 0) ∧
    (∀ lmax0 i a r e f,
      einsumContract (particle_interaction N lmax0 positions trans)
        tm rmax i a r i e f = 0) := by
  refine ⟨rfl, fun _ _ _ _ _ _ => rfl, ?_,
    asMatrix_identityT N rmax, ?_, ?_⟩
  · intro lmax0 T0 hsome hok i a r j c s
    rw [particle_cluster_tmatrix_valid N rmax positions tm trans lmax0 hsome]
      at hok
    injection hok with h2
    rw [← h2]
  · intro i a r c s
    exact sphere_interaction_diag N lmax positions aC trans i a r c s
  · intro lmax0 i a r e f
    exact einsum_particle_diag N lmax0 rmax positions tm trans i a r e f

/-- C6 witness: at `N = 1`, `lmax = 1`, `rmax = 3` with zero inputs, the
valid-`rmax` hypotheses of the ok-case decomposition are discharged
concretely (`rmax_to_Lmax 3 = some 1` and the assembler returning `.ok` of
the identity-plus-contraction tensor), and the decomposition is read off at
the entry `(0,0,0,0,0,0)`. -/
theorem c6_identity_plus_coupling_witness :
    rmax_to_Lmax 3 = some 1 ∧
    (fun i a r j c s => identityT 1 3 i a r j c s +
        einsumContract
          (particle_interaction 1 1 (fun _ => ((0 : ℝ), 0, 0))
            (fun _ _ _ _ _ => ((0 : ℂ), 0)))
          (fun _ _ _ _ _ => 0) 3 i a r j c s) 0 0 0 0 0 0 =
      identityT 1 3 0 0 0 0 0 0 +
        einsumContract
          (particle_interaction 1 1 (fun _ => ((0 : ℝ), 0, 0))
            (fun _ _ _ _ _ => ((0 : ℂ), 0)))
          (fun _ _ _ _ _ => 0) 3 0 0 0 0 0 0 :=
  ⟨rmax_to_Lmax_Lmax_to_rmax 1,
   (c6_identity_plus_coupling 1 1 3 (fun _ => ((0 : ℝ), 0, 0))
      (fun _ _ _ => 0) (fun _ _ _ _ _ => 0)
      (fun _ _ _ _ _ => ((0 : ℂ), 0))).2.2.1 1 _
     (rmax_to_Lmax_Lmax_to_rmax 1)
     (particle_cluster_tmatrix_valid 1 3 (fun _ => ((0 : ℝ), 0, 0))
       (fun _ _ _ _ _ => 0) (fun _ _ _ _ _ => ((0 : ℂ), 0)) 1
       (rmax_to_Lmax_Lmax_to_rmax 1))
     0 0 0 0 0 0⟩

theorem particlePairs_one : particlePairs 1 = [] := rfl

theorem sphere_tmatrix_single (lmax : ℕ) (positions : ℕ → V3) (aC : CoefArr)
    (trans : TransOp) (i a r j c s : ℕ) :
    sphere_cluster_tmatrix 1 lmax positions aC trans i a r j c s =
      identityT 1 (Lmax_to_rmax lmax) i a r j c s := by
  unfold sphere_cluster_tmatrix sphere_interaction
  rw [particlePairs_one]
  simp [zero6]

theorem asMatrix_single (lmax : ℕ) (positions : ℕ → V3) (aC : CoefArr)
    (trans : TransOp) :
    asMatrix 1 (Lmax_to_rmax lmax)
      (sphere_cluster_tmatrix 1 lmax positions aC trans) = 1 := by
  have h : asMatrix 1 (Lmax_to_rmax lmax)
      (sphere_cluster_tmatrix 1 lmax positions aC trans) =
      asMatrix 1 (Lmax_to_rmax lmax) (identityT 1 (Lmax_to_rmax lmax)) := by
    funext p q
    unfold asMatrix
    rw [sphere_tmatrix_single]
  rw [h, asMatrix_identityT]

/-- C5: for a single particle (`N = 1`), with any coefficients and any
translation operator (hence any wavenumber), the assembled operator is
exactly the identity tensor: every entry agrees with the rank-6 Kronecker
delta (the particle-pair loop never runs, so there is no coupling term);
consequently the contraction `T·x` is the identity map on coefficient
vectors and the solver returns the source unchanged. -/
theorem c5_single_particle_identity (lmax : ℕ) (positions : ℕ → V3)
    (aC : CoefArr) (p_src : SrcArr) (trans : TransOp) :
    (∀ i a r j c s,
      sphere_cluster_tmatrix 1 lmax positions aC trans i a r j c s =
        identityT 1 (Lmax_to_rmax lmax) i a r j c s) ∧
    (∀ x, contractFin 1 (Lmax_to_rmax lmax)
        (sphere_cluster_tmatrix 1 lmax positions aC trans) x = x) ∧
    solve_sphere_cluster 1 lmax positions aC p_src trans =
      .ok (srcVec 1 (Lmax_to_rmax lmax) p_src) := by
  refine ⟨sphere_tmatrix_single lmax positions aC trans, ?_, ?_⟩
  · intro x
    rw [contractFin_eq_mulVec, asMatrix_single, Matrix.one_mulVec]
  · unfold solve_sphere_cluster
    rw [asMatrix_single,
      tensorsolve_of_isUnit _ _ (by rw [Matrix.det_one]; exact isUnit_one),
      inv_one, Matrix.one_mulVec]

/-- C9: the solve step — `np.linalg.tensorsolve` on the reshaped square
system of size `N·2·rmax` (modelled in exact arithmetic) — fails with the
`SingularSystemError` exactly when the assembled operator is singular, and
for an invertible operator returns the unique coefficient vector `x` whose
(particle, polarization, mode) contraction `T·x` reproduces the source;
in the exact model the returned vector is the true solution, never a
NaN-carrying array. -/
theorem c9_solver_behavior (N rmax : ℕ) (T : Tensor6) (src : SrcArr) :
    (¬ IsUnit (asMatrix N rmax T).det →
      tensorsolve (asMatrix N rmax T) (srcVec N rmax src) =
        .error .singularSystemError) ∧
    (IsUnit (asMatrix N rmax T).det →
      ∃ x, tensorsolve (asMatrix N rmax T) (srcVec N rmax src) = .ok x ∧
        contractFin N rmax T x = srcVec N rmax src ∧
        ∀ y, contractFin N rmax T y = srcVec N rmax src → y = x) := by
  constructor
  · intro h
    exact tensorsolve_of_singular _ _ h
  · intro h
    refine ⟨(asMatrix N rmax T)⁻¹.mulVec (srcVec N rmax src),
      tensorsolve_of_isUnit _ _ h, ?_, ?_⟩
    · rw [contractFin_eq_mulVec, Matrix.mulVec_mulVec,
        Matrix.mul_nonsing_inv _ h, Matrix.one_mulVec]
    · intro y hy
      rw [contractFin_eq_mulVec] at hy
      have h2 := congrArg (fun w => (asMatrix N rmax T)⁻¹.mulVec w) hy
      dsimp only at h2
      rw [Matrix.mulVec_mulVec, Matrix.nonsing_inv_mul _ h,
        Matrix.one_mulVec] at h2
      exact h2

/-- C9 witness: the invertible branch instantiated at the identity operator
of the one-particle, one-mode system. -/
theorem c9_solver_witness :
    IsUnit (asMatrix 1 1 (identityT 1 1)).det ∧
      (∃ x, tensorsolve (asMatrix 1 1 (identityT 1 1))
          (srcVec 1 1 (fun _ _ _ => 5)) = .ok x ∧
        contractFin 1 1 (identityT 1 1) x = srcVec 1 1 (fun _ _ _ => 5) ∧
        ∀ y, contractFin 1 1 (identityT 1 1) y =
          srcVec 1 1 (fun _ _ _ => 5) → y = x) := by
  have hu : IsUnit (asMatrix 1 1 (identityT 1 1)).det := by
    rw [asMatrix_identityT, Matrix.det_one]
    exact isUnit_one
  exact ⟨hu, (c9_solver_behavior 1 1 (identityT 1 1) (fun _ _ _ => 5)).2 hu⟩

/-- C1 counterexample: at the guard-passing iteration `(r,n,m) = (0,1,-1)`,
`(s,v,u) = (0,1,-1)` of particle pair `(0,1)` (legal for every `lmax ≥ 1`),
the sixteen assignment destinations of a single translation-operator call
are pairwise distinct: one call populates sixteen tensor entries (the four
placements times the four polarization combinations), not eight. -/
theorem c1_counterexample :
    ¬((0 : ℤ) - 2 * (-1 : ℤ) < (0 : ℤ)) ∧
    (0, 1, (-1 : ℤ)) ∈ mode_indices 1 ∧
    (sphere_body_idxs 0 1 0 0 (((0 : ℤ) - 2 * (-1 : ℤ)).toNat)
        (((0 : ℤ) - 2 * (-1 : ℤ)).toNat)).dedup.length = 16 := by
  decide

/-- C1 (amended): one inner-loop iteration of `sphere_cluster_tmatrix`
(one translation-operator call) writes only the entries listed in
`sphere_body_idxs` and leaves every other tensor entry unchanged.  When the
retained mode pair is not its own companion (not both `r = s-2u` and
`s = r-2m`) the destinations are SIXTEEN distinct entries — the i←j and j←i
cross terms for `(r, s)` in all four polarization combinations, the j←i
ones with sign factors `(-1)^(n+v)` on the A-type entries and `(-1)^(n+v+1)`
on the B-type entries, and the companion-index placements at `(s-2u, r-2m)`
carrying the additional factor `(-1)^(m+u)` on A-type and `(-1)^(m+u+1)` on
B-type entries (hence `(-1)^(m+u+n+v)` on all four direction-swapped
companion entries).  For a self-companion pair (`r = s-2u` and `s = r-2m`)
the sixteen destinations collapse to EIGHT cells, and the later
companion-placement writes survive: the `(i,·,r,j,·,s)` cells hold the
`(-1)^(m+u)` / `(-1)^(m+u+1)`-signed values and the `(j,·,r,i,·,s)` cells
the `(-1)^(m+u+n+v)`-signed values. -/
theorem c1_sixteen_writes (T : Tensor6) (i j : ℕ) (aC : CoefArr) (A B : ℂ)
    (r n : ℕ) (m : ℤ) (s v : ℕ) (u : ℤ) (sc rc : ℕ)
    (hsc : sc = ((s : ℤ) - 2 * u).toNat) (hrc : rc = ((r : ℤ) - 2 * m).toNat)
    (hij : i ≠ j) :
    (∀ x1 x2 x3 x4 x5 x6, (x1, x2, x3, x4, x5, x6) ∉
        sphere_body_idxs i j r s sc rc →
      sphere_body T i j aC A B r n m s v u x1 x2 x3 x4 x5 x6 =
        T x1 x2 x3 x4 x5 x6) ∧
    (¬(r = sc ∧ s = rc) →
      sphere_body T i j aC A B r n m s v u i 0 r j 0 s = A * aC j 0 (v - 1) ∧
      sphere_body T i j aC A B r n m s v u i 0 r j 1 s = B * aC j 1 (v - 1) ∧
      sphere_body T i j aC A B r n m s v u i 1 r j 0 s = B * aC j 0 (v - 1) ∧
      sphere_body T i j aC A B r n m s v u i 1 r j 1 s = A * aC j 1 (v - 1) ∧
      sphere_body T i j aC A B r n m s v u j 0 r i 0 s =
        sgn (n + v) * A * aC i 0 (v - 1) ∧
      sphere_body T i j aC A B r n m s v u j 0 r i 1 s =
        sgn (n + v + 1) * B * aC i 1 (v - 1) ∧
      sphere_body T i j aC A B r n m s v u j 1 r i 0 s =
        sgn (n + v + 1) * B * aC i 0 (v - 1) ∧
      sphere_body T i j aC A B r n m s v u j 1 r i 1 s =
        sgn (n + v) * A * aC i 1 (v - 1) ∧
      sphere_body T i j aC A B r n m s v u i 0 sc j 0 rc =
        sgn (m + u) * A * aC j 0 (n - 1) ∧
      sphere_body T i j aC A B r n m s v u i 0 sc j 1 rc =
        sgn (m + u + 1) * B * aC j 1 (n - 1) ∧
      sphere_body T i j aC A B r n m s v u i 1 sc j 0 rc =
        sgn (m + u + 1) * B * aC j 0 (n - 1) ∧
      sphere_body T i j aC A B r n m s v u i 1 sc j 1 rc =
        sgn (m + u) * A * aC j 1 (n - 1) ∧
      sphere_body T i j aC A B r n m s v u j 0 sc i 0 rc =
        sgn (m + u + n + v) * A * aC i 0 (n - 1) ∧
      sphere_body T i j aC A B r n m s v u j 0 sc i 1 rc =
        sgn (m + u + n + v) * B * aC i 1 (n - 1) ∧
      sphere_body T i j aC A B r n m s v u j 1 sc i 0 rc =
        sgn (m + u + n + v) * B * aC i 0 (n - 1) ∧
      sphere_body T i j aC A B r n m s v u j 1 sc i 1 rc =
        sgn (m + u + n + v) * A * aC i 1 (n - 1)) ∧
    ((r = sc ∧ s = rc) →
      sphere_body T i j aC A B r n m s v u i 0 r j 0 s =
        sgn (m + u) * A * aC j 0 (n - 1) ∧
      sphere_body T i j aC A B r n m s v u i 0 r j 1 s =
        sgn (m + u + 1) * B * aC j 1 (n - 1) ∧
      sphere_body T i j aC A B r n m s v u i 1 r j 0 s =
        sgn (m + u + 1) * B * aC j 0 (n - 1) ∧
      sphere_body T i j aC A B r n m s v u i 1 r j 1 s =
        sgn (m + u) * A * aC j 1 (n - 1) ∧
      sphere_body T i j aC A B r n m s v u j 0 r i 0 s =
        sgn (m + u + n + v) * A * aC i 0 (n - 1) ∧
      sphere_body T i j aC A B r n m s v u j 0 r i 1 s =
        sgn (m + u + n + v) * B * aC i 1 (n - 1) ∧
      sphere_body T i j aC A B r n m s v u j 1 r i 0 s =
        sgn (m + u + n + v) * B * aC i 0 (n - 1) ∧
      sphere_body T i j aC A B r n m s v u j 1 r i 1 s =
        sgn (m + u + n + v) * A * aC i 1 (n - 1)) := by
  subst hsc hrc
  have hji : j ≠ i := Ne.symm hij
  refine ⟨?_, ?_, ?_⟩
  · intro x1 x2 x3 x4 x5 x6 hx
    simp only [sphere_body_idxs, List.mem_cons, List.not_mem_nil, or_false,
      not_or] at hx
    obtain ⟨h1, h2, h3, h4, h5, h6, h7, h8, h9, h10, h11, h12, h13, h14,
      h15, h16⟩ := hx
    simp only [sphere_body, upd6]
    rw [if_neg h16, if_neg h15, if_neg h14, if_neg h13, if_neg h12,
      if_neg h11, if_neg h10, if_neg h9, if_neg h8, if_neg h7, if_neg h6,
      if_neg h5, if_neg h4, if_neg h3, if_neg h2, if_neg h1]
  · intro hdist
    have hdist2 : ¬(((s : ℤ) - 2 * u).toNat = r ∧
        ((r : ℤ) - 2 * m).toNat = s) :=
      fun h => hdist ⟨h.1.symm, h.2.symm⟩
    refine ⟨?_, ?_, ?_, ?_, ?_, ?_, ?_, ?_, ?_, ?_, ?_, ?_, ?_, ?_, ?_, ?_⟩
    all_goals
      simp [sphere_body, upd6, Prod.mk.injEq, hij, hji, hdist, hdist2]
  · intro hcoll
    obtain ⟨e1, e2⟩ := hcoll
    refine ⟨?_, ?_, ?_, ?_, ?_, ?_, ?_, ?_⟩
    all_goals
      simp only [sphere_body]
      rw [← e1, ← e2]
      simp [upd6, Prod.mk.injEq, hij, hji]

/-- C1 witness: the theorem applied at two concrete iterations of particle
pair `(0, 1)` with `A = 2`, `B = 3` and all Mie coefficients `1` — a
non-self-companion pair `(r,n,m) = (0,1,-1)`, `(s,v,u) = (1,1,0)` (first of
the sixteen populated entries) and the self-companion pair
`(r,n,m) = (1,1,0) = (s,v,u)` (first of the eight collapsed cells, holding
the companion-placement value). -/
theorem c1_sixteen_writes_witness :
    sphere_body zero6 0 1 (fun _ _ _ => (1 : ℂ)) 2 3 0 1 (-1) 1 1 0 0 0 0 1 0 1 =
      2 * 1 ∧
    sphere_body zero6 0 1 (fun _ _ _ => (1 : ℂ)) 2 3 1 1 0 1 1 0 0 0 1 1 0 1 =
      sgn (0 + 0) * 2 * 1 :=
  ⟨((c1_sixteen_writes zero6 0 1 (fun _ _ _ => (1 : ℂ)) 2 3 0 1 (-1) 1 1 0 1 2
      (by decide) (by decide) (by decide)).2.1 (by decide)).1,
   ((c1_sixteen_writes zero6 0 1 (fun _ _ _ => (1 : ℂ)) 2 3 1 1 0 1 1 0 1 1
      (by decide) (by decide) (by decide)).2.2 (by decide)).1⟩

/-- Two folds over the same list preserve a binary relation preserved by
each paired step. -/
theorem foldlRel {α β γ : Type _} (R : β → γ → Prop) (f : β → α → β)
    (g : γ → α → γ) :
    ∀ (L : List α) (b : β) (c : γ), R b c →
      (∀ b' c' x, x ∈ L → R b' c' → R (f b' x) (g c' x)) →
      R (L.foldl f b) (L.foldl g c) := by
  intro L
  induction L with
  | nil => intro b c h _; exact h
  | cons hd tl ih =>
      intro b c h hstep
      exact ih _ _ (hstep b c hd (by simp) h)
        (fun b' c' x hx hbc => hstep b' c' x (by simp [hx]) hbc)

theorem listSum_eq_single (n : ℕ) (f : ℕ → ℂ) (k : ℕ)
    (hf : ∀ d, d ≠ k → f d = 0) :
    ((List.range n).map f).sum = if k < n then f k else 0 := by
  induction n with
  | zero => simp
  | succ n ih =>
      rw [List.range_succ, List.map_append, List.sum_append]
      simp only [List.map_cons, List.map_nil, List.sum_cons, List.sum_nil,
        add_zero]
      by_cases hk : k = n
      · subst hk
        rw [ih, if_neg (lt_irrefl k), if_pos (Nat.lt_succ_self k), zero_add]
      · rw [hf n (by omega), add_zero, ih]
        split_ifs <;> first | rfl | omega

theorem scaledBy_zero (aC : CoefArr) : ScaledBy aC zero6 zero6 := by
  intro x1 x2 x3 x4 x5 x6
  simp [zero6]

theorem scaledBy_upd6 {aC : CoefArr} {S P : Tensor6} {i a r j c s : ℕ}
    {wS w : ℂ} (h : ScaledBy aC S P)
    (hw : wS = w * aC j c (degOf s - 1)) :
    ScaledBy aC (upd6 S i a r j c s wS) (upd6 P i a r j c s w) := by
  intro x1 x2 x3 x4 x5 x6
  unfold upd6
  by_cases hx : (x1, x2, x3, x4, x5, x6) = (i, a, r, j, c, s)
  · rw [if_pos hx, if_pos hx]
    simp only [Prod.mk.injEq] at hx
    obtain ⟨rfl, rfl, rfl, rfl, rfl, rfl⟩ := hx
    exact hw
  · rw [if_neg hx, if_neg hx]
    exact h x1 x2 x3 x4 x5 x6

theorem scaledBy_body (aC : CoefArr) (S P : Tensor6) (i j : ℕ) (A B : ℂ)
    (r n : ℕ) (m : ℤ) (s v : ℕ) (u : ℤ)
    (hSP : ScaledBy aC S P) (hdegs : degOf s = v)
    (hdegrc : degOf (((r : ℤ) - 2 * m).toNat) = n) :
    ScaledBy aC (sphere_body S i j aC A B r n m s v u)
      (particle_body P i j A B r n m s v u) := by
  simp only [sphere_body, particle_body]
  iterate 16 apply scaledBy_upd6
  · exact hSP
  all_goals first
    | (rw [hdegs])
    | (rw [hdegrc])

theorem scaledBy_interaction (N lmax : ℕ) (positions : ℕ → V3)
    (aC : CoefArr) (trans : TransOp) :
    ScaledBy aC (sphere_interaction N lmax positions aC trans)
      (particle_interaction N lmax positions trans) := by
  unfold sphere_interaction particle_interaction
  refine foldlRel _ _ _ _ _ _ (scaledBy_zero aC) ?_
  intro S P p hp hSP
  unfold sphere_pair_step particle_pair_step
  refine foldlRel _ _ _ _ _ _ hSP ?_
  intro S2 P2 it hit hSP2
  rw [mem_modePairs] at hit
  obtain ⟨⟨r, n, m⟩, ⟨s, v, u⟩⟩ := it
  obtain ⟨h1, h2⟩ := hit
  unfold sphere_step particle_step
  dsimp only
  split_ifs
  · exact hSP2
  · exact scaledBy_body aC S2 P2 p.1 p.2 _ _ r n m s v u hSP2
      (degOf_eq lmax s v u h2)
      (degOf_eq lmax _ n (-m) (conj_mem_mode_indices lmax r n m h1).2)

theorem einsum_diagTM (M : Tensor6) (aC : CoefArr) (rmax : ℕ)
    (i a b j e f : ℕ) :
    einsumContract M (diagTM aC) rmax i a b j e f =
      if e < 2 ∧ f < rmax then M i a b j e f * aC j e (degOf f - 1)
      else 0 := by
  unfold einsumContract diagTM
  have hinner : ∀ c,
      ((List.range rmax).map (fun d =>
        M i a b j c d * if c = e ∧ d = f then aC j c (degOf d - 1) else 0)).sum
      = if c = e then
          (if f < rmax then M i a b j e f * aC j e (degOf f - 1) else 0)
        else 0 := by
    intro c
    by_cases hc : c = e
    · subst hc
      rw [if_pos rfl, listSum_eq_single rmax _ f ?_]
      · by_cases hf : f < rmax
        · rw [if_pos hf, if_pos hf, if_pos ⟨rfl, rfl⟩]
        · rw [if_neg hf, if_neg hf]
      · intro d hd
        rw [if_neg (fun hcont => hd hcont.2), mul_zero]
    · rw [if_neg hc]
      apply List.sum_eq_zero
      intro x hx
      rw [List.mem_map] at hx
      obtain ⟨d, _, rfl⟩ := hx
      rw [if_neg (fun hcont => hc hcont.1), mul_zero]
  rw [funext hinner, listSum_eq_single 2 _ e (fun c hc => if_neg hc),
    if_pos (rfl : e = e)]
  by_cases he : e < 2
  · rw [if_pos he]
    by_cases hf : f < rmax
    · rw [if_pos hf, if_pos (show e < 2 ∧ f < rmax from ⟨he, hf⟩)]
    · rw [if_neg hf, if_neg (show ¬(e < 2 ∧ f < rmax) from fun hc => hf hc.2)]
  · rw [if_neg he, if_neg (show ¬(e < 2 ∧ f < rmax) from fun hc => he hc.1)]

/-- C3: refinement round-trip between the two assemblers.  For every
particle count, positions, scalar Mie coefficients and translation operator
(hence every wavenumber), running the general T-matrix assembler on the
purely diagonal per-particle T-matrices built from the scalar coefficients
produces, entry for entry, exactly the operator of the scalar-coefficient
assembler (exact complex arithmetic; numpy computes the same products in
floating point). -/
theorem c3_diagonal_tmatrix_refinement (N lmax : ℕ) (positions : ℕ → V3)
    (aC : CoefArr) (trans : TransOp) :
    particle_cluster_tmatrix N (Lmax_to_rmax lmax) positions (diagTM aC)
        trans =
      .ok (sphere_cluster_tmatrix N lmax positions aC trans) := by
  rw [particle_cluster_tmatrix_valid N (Lmax_to_rmax lmax) positions
    (diagTM aC) trans lmax (rmax_to_Lmax_Lmax_to_rmax lmax)]
  congr 1
  funext i a b j e f
  unfold sphere_cluster_tmatrix
  congr 1
  rw [einsum_diagTM]
  have hrel := scaledBy_interaction N lmax positions aC trans
  by_cases hin : e < 2 ∧ f < Lmax_to_rmax lmax
  · rw [if_pos hin]
    exact (hrel i a b j e f).symm
  · rw [if_neg hin]
    by_contra h
    have hsupp := (supp_sphere_interaction N lmax positions aC trans)
      i a b j e f (fun hz => h hz.symm)
    exact hin ⟨hsupp.2.2.2.2.1, hsupp.2.2.2.2.2.1⟩

theorem sgn_one : sgn 1 = -1 := by
  unfold sgn
  norm_num

theorem sgn_sq (x : ℤ) : sgn x ^ 2 = 1 := by
  rw [sq]
  exact sgn_mul_sgn x

theorem swapIdx_zero : swapIdx 0 = 1 := rfl

theorem swapIdx_one : swapIdx 1 = 0 := rfl

theorem swappedOf_zero6 : SwappedOf zero6 zero6 := by
  intro x1 x2 x3 x4 x5 x6
  rfl

theorem swapCoef_at_zero (aC : CoefArr) (x y : ℕ) :
    swapCoef aC 0 x y = aC 1 x y := rfl

theorem swapCoef_at_one (aC : CoefArr) (x y : ℕ) :
    swapCoef aC 1 x y = aC 0 x y := rfl

theorem swappedOf_body (T2 T : Tensor6) (aC : CoefArr) (A B : ℂ)
    (r n : ℕ) (m : ℤ) (s v : ℕ) (u : ℤ) (hR : SwappedOf T2 T) :
    SwappedOf
      (sphere_body T2 0 1 (swapCoef aC) (sgn (n + v) * A)
        (sgn (n + v + 1) * B) r n m s v u)
      (sphere_body T 0 1 aC A B r n m s v u) := by
  intro x1 x2 x3 x4 x5 x6
  by_cases h1 : x1 = 0
  · subst h1
    by_cases h4 : x4 = 1
    · subst h4
      rw [swapIdx_zero, swapIdx_one]
      simp only [sphere_body, upd6, swapCoef_at_zero, swapCoef_at_one,
        Prod.mk.injEq]
      norm_num
      refine if_congr Iff.rfl ?_ (if_congr Iff.rfl ?_ (if_congr Iff.rfl ?_
        (if_congr Iff.rfl ?_ (if_congr Iff.rfl ?_ (if_congr Iff.rfl ?_
        (if_congr Iff.rfl ?_ (if_congr Iff.rfl ?_ ?_))))))) <;>
        first
          | exact hR 0 x2 x3 1 x5 x6
          | (simp only [sgn_add, sgn_one]; try ring_nf;
             try simp only [sgn_sq]; try ring_nf; try rfl)
    · by_cases h4' : x4 = 0
      · subst h4'
        rw [swapIdx_zero]
        simp only [sphere_body, upd6, Prod.mk.injEq]
        norm_num
        exact hR 0 x2 x3 0 x5 x6
      · have hs4 : swapIdx x4 = x4 := by
          unfold swapIdx
          rw [if_neg h4', if_neg h4]
        rw [swapIdx_zero, hs4]
        simp only [sphere_body, upd6, Prod.mk.injEq]
        simp only [h4, h4']
        norm_num
        have hRr := hR 0 x2 x3 x4 x5 x6
        rw [swapIdx_zero, hs4] at hRr
        exact hRr
  · by_cases h1' : x1 = 1
    · subst h1'
      by_cases h4 : x4 = 0
      · subst h4
        rw [swapIdx_zero, swapIdx_one]
        simp only [sphere_body, upd6, swapCoef_at_zero, swapCoef_at_one,
          Prod.mk.injEq]
        norm_num
        refine if_congr Iff.rfl ?_ (if_congr Iff.rfl ?_ (if_congr Iff.rfl ?_
          (if_congr Iff.rfl ?_ (if_congr Iff.rfl ?_ (if_congr Iff.rfl ?_
          (if_congr Iff.rfl ?_ (if_congr Iff.rfl ?_ ?_))))))) <;>
          first
            | exact hR 1 x2 x3 0 x5 x6
            | (simp only [sgn_add, sgn_one]; try ring_nf;
               try simp only [sgn_sq]; try ring_nf; try rfl)
      · by_cases h4' : x4 = 1
        · subst h4'
          rw [swapIdx_one]
          simp only [sphere_body, upd6, Prod.mk.injEq]
          norm_num
          exact hR 1 x2 x3 1 x5 x6
        · have hs4 : swapIdx x4 = x4 := by
            unfold swapIdx
            rw [if_neg h4, if_neg h4']
          rw [swapIdx_one, hs4]
          simp only [sphere_body, upd6, Prod.mk.injEq]
          simp only [h4, h4']
          norm_num
          have hRr := hR 1 x2 x3 x4 x5 x6
          rw [swapIdx_one, hs4] at hRr
          exact hRr
    · have hs1 : swapIdx x1 = x1 := by
        unfold swapIdx
        rw [if_neg h1, if_neg h1']
      rw [hs1]
      by_cases h4 : x4 = 0
      · subst h4
        rw [swapIdx_zero]
        simp only [sphere_body, upd6, Prod.mk.injEq]
        simp only [h1, h1']
        norm_num
        have hRr := hR x1 x2 x3 0 x5 x6
        rw [swapIdx_zero, hs1] at hRr
        exact hRr
      · by_cases h4' : x4 = 1
        · subst h4'
          rw [swapIdx_one]
          simp only [sphere_body, upd6, Prod.mk.injEq]
          simp only [h1, h1']
          norm_num
          have hRr := hR x1 x2 x3 1 x5 x6
          rw [swapIdx_one, hs1] at hRr
          exact hRr
        · have hs4 : swapIdx x4 = x4 := by
            unfold swapIdx
            rw [if_neg h4, if_neg h4']
          rw [hs4]
          simp only [sphere_body, upd6, Prod.mk.injEq]
          simp only [h1, h1', h4, h4']
          norm_num
          have hRr := hR x1 x2 x3 x4 x5 x6
          rw [hs1, hs4] at hRr
          exact hRr

theorem swappedOf_interaction (lmax : ℕ) (positions : ℕ → V3) (aC : CoefArr)
    (trans : TransOp)
    (hpar : ∀ (m : ℤ) (n : ℕ) (u : ℤ) (v : ℕ) (d : V3),
      trans m n u v (v3neg d) =
        (sgn (n + v) * (trans m n u v d).1,
         sgn (n + v + 1) * (trans m n u v d).2)) :
    SwappedOf
      (sphere_interaction 2 lmax (swapPos positions) (swapCoef aC) trans)
      (sphere_interaction 2 lmax positions aC trans) := by
  unfold sphere_interaction
  have hpp : particlePairs 2 = [(0, 1)] := rfl
  rw [hpp]
  simp only [List.foldl_cons, List.foldl_nil]
  unfold sphere_pair_step
  dsimp only
  have hd : v3sub (swapPos positions 0) (swapPos positions 1) =
      v3neg (v3sub (positions 0) (positions 1)) := by
    unfold swapPos v3sub v3neg
    rw [swapIdx_zero, swapIdx_one]
    simp only [Prod.mk.injEq]
    refine ⟨by ring, by ring, by ring⟩
  rw [hd]
  refine foldlRel SwappedOf _ _ (modePairs lmax) zero6 zero6
    swappedOf_zero6 ?_
  intro T2 T it hit hR
  obtain ⟨⟨r, n, m⟩, ⟨s, v, u⟩⟩ := it
  unfold sphere_step
  dsimp only
  split_ifs
  · exact hR
  · rw [hpar m n u v (v3sub (positions 0) (positions 1))]
    dsimp only
    exact swappedOf_body T2 T aC _ _ r n m s v u hR

/-- C4: for an `N = 2` configuration, swapping the two particles' rows in
`positions` and in the coefficient array and re-assembling yields coupling
blocks equal to the original operator's blocks at the relabeled (i↔j)
locations — assuming the translation operator satisfies the stated
index-swap/parity contract, i.e. reversing the separation direction
multiplies `A` by `(-1)^(n+v)` and `B` by `(-1)^(n+v+1)`. -/
theorem c4_pair_swap_reassembly (lmax : ℕ) (positions : ℕ → V3)
    (aC : CoefArr) (trans : TransOp)
    (hpar : ∀ (m : ℤ) (n : ℕ) (u : ℤ) (v : ℕ) (d : V3),
      trans m n u v (v3neg d) =
        (sgn (n + v) * (trans m n u v d).1,
         sgn (n + v + 1) * (trans m n u v d).2)) :
    ∀ a r c s,
      sphere_cluster_tmatrix 2 lmax (swapPos positions) (swapCoef aC) trans
          0 a r 1 c s =
        sphere_cluster_tmatrix 2 lmax positions aC trans 1 a r 0 c s ∧
      sphere_cluster_tmatrix 2 lmax (swapPos positions) (swapCoef aC) trans
          1 a r 0 c s =
        sphere_cluster_tmatrix 2 lmax positions aC trans 0 a r 1 c s := by
  intro a r c s
  have hswap := swappedOf_interaction lmax positions aC trans hpar
  constructor
  · unfold sphere_cluster_tmatrix
    rw [show identityT 2 (Lmax_to_rmax lmax) 0 a r 1 c s = 0 by
        simp [identityT],
      show identityT 2 (Lmax_to_rmax lmax) 1 a r 0 c s = 0 by
        simp [identityT], zero_add, zero_add]
    have h := hswap 0 a r 1 c s
    rw [swapIdx_zero, swapIdx_one] at h
    exact h
  · unfold sphere_cluster_tmatrix
    rw [show identityT 2 (Lmax_to_rmax lmax) 1 a r 0 c s = 0 by
        simp [identityT],
      show identityT 2 (Lmax_to_rmax lmax) 0 a r 1 c s = 0 by
        simp [identityT], zero_add, zero_add]
    have h := hswap 1 a r 0 c s
    rw [swapIdx_zero, swapIdx_one] at h
    exact h

/-- C4 witness: the relabeling identity instantiated at a concrete two-
particle configuration with the constant-zero translation operator, which
satisfies the parity contract trivially. -/
theorem c4_pair_swap_witness :
    (∀ (m : ℤ) (n : ℕ) (u : ℤ) (v : ℕ) (d : V3),
      (fun _ _ _ _ _ => ((0 : ℂ), (0 : ℂ)) : TransOp) m n u v (v3neg d) =
        (sgn (n + v) *
            ((fun _ _ _ _ _ => ((0 : ℂ), (0 : ℂ)) : TransOp) m n u v d).1,
         sgn (n + v + 1) *
            ((fun _ _ _ _ _ => ((0 : ℂ), (0 : ℂ)) : TransOp) m n u v d).2)) ∧
    (∀ a r c s,
      sphere_cluster_tmatrix 2 1 (swapPos fun i => ((i : ℝ), 0, 0))
          (swapCoef fun _ _ _ => 1) (fun _ _ _ _ _ => ((0 : ℂ), (0 : ℂ)))
          0 a r 1 c s =
        sphere_cluster_tmatrix 2 1 (fun i => ((i : ℝ), 0, 0))
          (fun _ _ _ => 1) (fun _ _ _ _ _ => ((0 : ℂ), (0 : ℂ)))
          1 a r 0 c s ∧
      sphere_cluster_tmatrix 2 1 (swapPos fun i => ((i : ℝ), 0, 0))
          (swapCoef fun _ _ _ => 1) (fun _ _ _ _ _ => ((0 : ℂ), (0 : ℂ)))
          1 a r 0 c s =
        sphere_cluster_tmatrix 2 1 (fun i => ((i : ℝ), 0, 0))
          (fun _ _ _ => 1) (fun _ _ _ _ _ => ((0 : ℂ), (0 : ℂ)))
          0 a r 1 c s) := by
  have hpar0 : ∀ (m : ℤ) (n : ℕ) (u : ℤ) (v : ℕ) (d : V3),
      (fun _ _ _ _ _ => ((0 : ℂ), (0 : ℂ)) : TransOp) m n u v (v3neg d) =
        (sgn (n + v) *
            ((fun _ _ _ _ _ => ((0 : ℂ), (0 : ℂ)) : TransOp) m n u v d).1,
         sgn (n + v + 1) *
            ((fun _ _ _ _ _ => ((0 : ℂ), (0 : ℂ)) : TransOp) m n u v d).2) := by
    intro m n u v d
    simp
  exact ⟨hpar0, c4_pair_swap_reassembly 1 (fun i => ((i : ℝ), 0, 0))
    (fun _ _ _ => 1) (fun _ _ _ _ _ => ((0 : ℂ), (0 : ℂ))) hpar0⟩
